import Mathlib

/-
Verification development for the wezterm-parallel repository.

The repository visible under version control consists of test/tooling code:
Python WebSocket/IPC test clients and `scripts/performance-analyzer.py`.
The analyzer's scoring logic is embedded below directly from that source.
The concurrent state-synchronization core (task board, command router,
priority scheduler, broadcast hub) is not present in the repository, so its
operations are modelled from the specification; every such definition
carries a doc comment starting with "Modelled from the spec:".
-/

namespace WeztermParallel

/-! ## Performance analyzer (`scripts/performance-analyzer.py`) -/

/-- Stress-test workspace-creation summary, the
`stress_test.workspace_creation` object of the benchmark-results JSON:
`success_count` and `target_count` fields read by
`generate_performance_score`. -/
structure StressWs where
  success_count : Nat
  target_count : Nat
deriving DecidableEq, Repr

/-- Benchmark-results input of `PerformanceAnalyzer.generate_performance_score`
(`performance-analyzer.py`, lines 266-336).  `startup_time` is a list whose
entries may be JSON null (`none`); `memory_avg_mb` is `none` when
`memory_usage` is falsy, otherwise its `avg_mb`; `api_response` holds each
item's `avg_response_time` when the key is present (`none` when absent);
`stress_ws` is `none` when `stress_test` is falsy or lacks
`workspace_creation`.  Measured quantities are modelled as rationals. -/
structure BenchmarkResults where
  startup_time : List (Option ℚ)
  memory_avg_mb : Option ℚ
  api_response : List (Option ℚ)
  stress_ws : Option StressWs

/-- Startup-time deduction (lines 273-284): with `avg = np.mean(valid_times)`
over the non-null entries, subtract 30 when `avg > 5`, else 15 when
`avg > 3`, else nothing; skipped when there are no valid times. -/
def startupPenalty (startup_time : List (Option ℚ)) : Int :=
  let valid := startup_time.filterMap id
  if valid.isEmpty then 0
  else
    let avg : ℚ := valid.sum / valid.length
    if avg > 5 then 30 else if avg > 3 then 15 else 0

/-- Memory deduction (lines 287-297): subtract 25 when `avg_mb > 200`, else
10 when `avg_mb > 100`, else nothing; skipped when `memory_usage` is falsy. -/
def memoryPenalty (memory_avg_mb : Option ℚ) : Int :=
  match memory_avg_mb with
  | none => 0
  | some m => if m > 200 then 25 else if m > 100 then 10 else 0

/-- Count of items whose `avg_response_time` key is present and exceeds 0.1
seconds (lines 302-305). -/
def slowApis (api_response : List (Option ℚ)) : Nat :=
  ((api_response.filterMap id).filter (fun t => t > 1/10)).length

/-- API-response deduction (lines 300-310): `slow_apis * 5`, applied only
when `api_data` is non-empty (an empty list is falsy in Python). -/
def apiPenalty (api_response : List (Option ℚ)) : Int :=
  if api_response.isEmpty then 0
  else if slowApis api_response > 0 then (slowApis api_response) * 5 else 0

/-- Stress-test deduction (lines 313-321): subtract 20 when the
workspace-creation success ratio is below 0.8.  The Python code divides
`success_count / target_count`; the rational model uses the `x / 0 = 0`
convention for a zero `target_count` (where the Python would raise). -/
def stressPenalty (stress_ws : Option StressWs) : Int :=
  match stress_ws with
  | none => 0
  | some w =>
    if ((w.success_count : ℚ) / (w.target_count : ℚ)) < 4/5 then 20 else 0

/-- Total performance score (lines 266-336): start from 100, apply each
deduction in turn, and clamp at 0 with `max(0, score)` (line 323). -/
def generate_performance_score (r : BenchmarkResults) : Int :=
  max 0 (100 - startupPenalty r.startup_time - memoryPenalty r.memory_avg_mb
           - apiPenalty r.api_response - stressPenalty r.stress_ws)

/-- Rating tier printed by `generate_performance_score` (lines 327-334). -/
inductive Rating where
  | excellent | good | average | poor
deriving DecidableEq, Repr

/-- Tier selection of lines 327-334: `>= 90` excellent, `>= 70` good,
`>= 50` average, otherwise poor. -/
def scoreRating (s : Int) : Rating :=
  if s ≥ 90 then .excellent
  else if s ≥ 70 then .good
  else if s ≥ 50 then .average
  else .poor

/-- CSS class chosen in `generate_comprehensive_report` (lines 484-491):
`>= 90` score-excellent, `>= 70` score-good, `>= 50` score-average,
otherwise score-poor. -/
def reportScoreClass (s : Int) : String :=
  if s ≥ 90 then "score-excellent"
  else if s ≥ 70 then "score-good"
  else if s ≥ 50 then "score-average"
  else "score-poor"

/-- CSS class corresponding to each printed rating tier. -/
def ratingClass : Rating → String
  | .excellent => "score-excellent"
  | .good => "score-good"
  | .average => "score-average"
  | .poor => "score-poor"

/-! ## Core model

Modelled from the spec: the concurrent state-synchronization core (sections
2-7 of the spec) is not part of the visible repository, so the definitions
below transcribe the spec's data model and operation contracts. -/

/-- Modelled from the spec: error taxonomy of section 7 (`Empty` is the
scheduler's drained signal, carried by `Option` on `dequeue` instead). -/
inductive CmdError where
  | NotFound | Conflict | InvalidArgument | UnknownCommand | Internal
deriving DecidableEq, Repr

/-- Modelled from the spec: outbound event names of section 6 plus the
direct IPC responses (`Pong`, acknowledgements). -/
inductive Event where
  | TaskUpdateCreated (task_id : String)
  | TaskMoved (task_id to_column : String)
  | TaskProgress (task_id : String) (progress : Int)
  | TaskBoardUpdate
  | MetricsUpdate (total_workspaces total_processes : Nat)
  | Heartbeat
  | Pong
  | Ack
  | AckProcess (pid : Nat)
  | HistoryResult (entries : List (Int × Int))
deriving DecidableEq, Repr

/-- Modelled from the spec: a task priority arrives either as an integer
0-10 or as a named tier (section 3, section 9 open question). -/
inductive PriorityIn where
  | num (n : Int)
  | tier (t : String)
deriving DecidableEq, Repr

/-- Modelled from the spec: numeric rank of each named priority tier
(section 3: low/medium/high/urgent/critical map to a numeric rank; the
concrete rank values are not fixed by the spec and only their existence
matters to the claims). -/
def tierRank : String → Option Int
  | "low" => some 2
  | "medium" => some 5
  | "high" => some 8
  | "urgent" => some 9
  | "critical" => some 10
  | _ => none

/-- Modelled from the spec: validation of a priority spelling; integers
must lie in 0-10, names must be a known tier. -/
def priorityRank : PriorityIn → Option Int
  | .num n => if 0 ≤ n ∧ n ≤ 10 then some n else none
  | .tier t => tierRank t

/-- Modelled from the spec: the enumerated task-category set of section 3. -/
def categories : List String :=
  ["Development", "BugFix", "Feature", "Testing", "Enhancement"]

/-- Modelled from the spec: task attributes used by the verified
operations (section 3); the remaining descriptive attributes do not
affect any claim. -/
structure Task where
  id : String
  title : String
  priority : Int
  progress : Int
deriving DecidableEq, Repr

/-- Modelled from the spec: `CreateTask` input (`task_data`); the id is
the identity the server assigns to the new task. -/
structure TaskData where
  id : String
  title : String
  description : String
  category : String
  priority : PriorityIn
deriving DecidableEq, Repr

/-- Modelled from the spec: a column with its ordered task-id membership
list (section 3). -/
structure Column where
  id : String
  title : String
  tasks : List String
deriving DecidableEq, Repr

/-- Modelled from the spec: the task board owns a task table and an
ordered sequence of columns (section 3). -/
structure TaskBoard where
  tasks : List Task
  columns : List Column
deriving DecidableEq, Repr

/-- Occurrences of a task id in the board's task table. -/
def taskIdCount (b : TaskBoard) (tid : String) : Nat :=
  (b.tasks.filter (fun t => t.id == tid)).length

/-- Total occurrences of a task id across a column list's membership
lists (counts duplicates inside a single column as well). -/
def columnsCount (cols : List Column) (tid : String) : Nat :=
  (cols.map (fun c => c.tasks.count tid)).sum

/-- Total occurrences of a task id across the board's columns. -/
def memberCount (b : TaskBoard) (tid : String) : Nat :=
  columnsCount b.columns tid

/-- Board invariant of section 3: every task id referenced by a column
exists in the task table exactly once, every table task belongs to
exactly one column's membership list, and no column contains a duplicate
task id. -/
def BoardInv (b : TaskBoard) : Prop :=
  (∀ c ∈ b.columns, ∀ tid ∈ c.tasks, taskIdCount b tid = 1) ∧
  (∀ t ∈ b.tasks, memberCount b t.id = 1) ∧
  (∀ c ∈ b.columns, c.tasks.Nodup)

/-- Decidability of the board invariant, by evaluation over the finite
task and column lists. -/
instance (b : TaskBoard) : Decidable (BoardInv b) := by
  unfold BoardInv
  exact inferInstance

/-- Membership test of a task id in the board's task table. -/
def taskExists (b : TaskBoard) (tid : String) : Bool :=
  b.tasks.any (fun t => t.id == tid)

/-- First column carrying the given column id. -/
def findColumn (b : TaskBoard) (cid : String) : Option Column :=
  b.columns.find? (fun c => c.id == cid)

/-- Modelled from the spec: placing a brand-new task into the default
intake column (the first board column, section 4.3); fails when the
board has no columns. -/
def insertTask (b : TaskBoard) (t : Task) : Option TaskBoard :=
  match b.columns with
  | [] => none
  | c :: rest =>
    some { b with tasks := b.tasks ++ [t],
                  columns := { c with tasks := c.tasks ++ [t.id] } :: rest }

/-- Modelled from the spec: `createTask` (section 4.1, 4.3): validates
title non-empty, category and priority members of their enumerated sets,
rejects a duplicate id with `Conflict`, then places the task in the
default intake column with progress 0. -/
def createTask (b : TaskBoard) (d : TaskData) : Except CmdError (TaskBoard × Event) :=
  if d.title = "" then .error .InvalidArgument
  else if categories.contains d.category then
    match priorityRank d.priority with
    | some rank =>
      if taskExists b d.id then .error .Conflict
      else
        match insertTask b ⟨d.id, d.title, rank, 0⟩ with
        | some b' => .ok (b', .TaskUpdateCreated d.id)
        | none => .error .NotFound
    | none => .error .InvalidArgument
  else .error .InvalidArgument

/-- Removal of a task id from every column's membership list. -/
def removeEverywhere (cols : List Column) (tid : String) : List Column :=
  cols.map (fun c => { c with tasks := c.tasks.filter (fun x => x != tid) })

/-- Appending a task id to the first column carrying the given column id. -/
def addToColumn : List Column → String → String → List Column
  | [], _, _ => []
  | c :: cs, cid, tid =>
    if c.id == cid then { c with tasks := c.tasks ++ [tid] } :: cs
    else c :: addToColumn cs cid tid

/-- Modelled from the spec: `moveTask(taskId, targetColumn)` (section
4.1): fails `NotFound` when the task or the target column is absent, is
a success no-op when the task already sits in the target column, and
otherwise removes the id from its current column and appends it to the
target. -/
def moveTask (b : TaskBoard) (tid cid : String) : Except CmdError (TaskBoard × Event) :=
  if taskExists b tid then
    match findColumn b cid with
    | some c =>
      if tid ∈ c.tasks then .ok (b, .TaskMoved tid cid)
      else
        .ok ({ b with columns := addToColumn (removeEverywhere b.columns tid) cid tid },
              .TaskMoved tid cid)
    | none => .error .NotFound
  else .error .NotFound

/-- Board state after a move command, keeping the prior board on failure. -/
def applyMove (b : TaskBoard) (tid cid : String) : TaskBoard :=
  match moveTask b tid cid with
  | .ok (b', _) => b'
  | .error _ => b

/-- Modelled from the spec: `updateProgress(taskId, percent)` (section
4.1): fails `NotFound` for an absent task and `InvalidArgument` for a
percent outside 0-100 (rejected, never clamped); otherwise sets the
task's progress to percent. -/
def updateProgress (b : TaskBoard) (tid : String) (p : Int) : Except CmdError (TaskBoard × Event) :=
  if taskExists b tid then
    if p < 0 ∨ 100 < p then .error .InvalidArgument
    else
      .ok ({ b with tasks := b.tasks.map (fun t => if t.id == tid then { t with progress := p } else t) },
            .TaskProgress tid p)
  else .error .NotFound

/-- Modelled from the spec: a pending intake entry of the Priority
Scheduler (section 4.2); arrival order is the queue's list order. -/
structure SchedEntry where
  id : String
  priority : Int
deriving DecidableEq, Repr

/-- Modelled from the spec: enqueue appends at the arrival end. -/
def enqueue (q : List SchedEntry) (e : SchedEntry) : List SchedEntry := q ++ [e]

/-- Modelled from the spec: dequeue removes and returns the
highest-priority pending entry, ties broken first-in-first-out by
arrival order; `none` is the `Empty` signal on a drained queue
(section 4.2). -/
def dequeue : List SchedEntry → Option (SchedEntry × List SchedEntry)
  | [] => none
  | e :: es =>
    match dequeue es with
    | none => some (e, [])
    | some (e', es') =>
      if e'.priority > e.priority then some (e', e :: es') else some (e, es)

/-- Modelled from the spec: a workspace registry entry (section 3). -/
structure Workspace where
  name : String
  template : String
deriving DecidableEq, Repr

/-- Modelled from the spec: a process registry entry (section 3). -/
structure Process where
  pid : Nat
  workspace : String
  command : String
deriving DecidableEq, Repr

/-- Modelled from the spec: the shared model owned by the Mutation
Serializer — task board, workspace and process registries, scheduler
queue, the process-id counter, and the historical-metrics samples
(time/value pairs) of the external store. -/
structure SysState where
  board : TaskBoard
  workspaces : List Workspace
  processes : List Process
  queue : List SchedEntry
  nextPid : Nat
  history : List (Int × Int)
deriving DecidableEq, Repr

/-- Modelled from the spec: decoded parameter payloads of the recognized
commands (section 4.3); `unit` stands for a parameter-less envelope. -/
inductive CmdParams where
  | create (d : TaskData)
  | move (task_id to_column : String)
  | progress (task_id : String) (progress : Int)
  | subscribe (subscriptions : List String)
  | query (metric_type : String) (start_time end_time : Int) (limit : Nat)
  | wsCreate (name template : String)
  | taskQueue (id : String) (priority : Int) (command : String)
  | procSpawn (workspace command : String)
  | unit
deriving DecidableEq, Repr

/-- Modelled from the spec: the ten recognized command names of the
Command Router contract (section 4.3). -/
def recognizedCommands : List String :=
  ["CreateTask", "MoveTask", "UpdateTaskProgress", "Subscribe", "RequestFullUpdate",
   "QueryHistory", "Ping", "WorkspaceCreate", "TaskQueue", "ProcessSpawn"]

/-- Modelled from the spec: the closed enumerated command type the
tagged-union wire commands decode to (section 9 design note). -/
inductive CmdTag where
  | createTask | moveTask | updateTaskProgress | subscribe | requestFullUpdate
  | queryHistory | ping | workspaceCreate | taskQueue | processSpawn
deriving DecidableEq, Repr

/-- Modelled from the spec: decoding of a command envelope's name into the
closed command type; names outside the Command Router contract decode to
`none`. -/
def parseCommand (name : String) : Option CmdTag :=
  if name = "CreateTask" then some .createTask
  else if name = "MoveTask" then some .moveTask
  else if name = "UpdateTaskProgress" then some .updateTaskProgress
  else if name = "Subscribe" then some .subscribe
  else if name = "RequestFullUpdate" then some .requestFullUpdate
  else if name = "QueryHistory" then some .queryHistory
  else if name = "Ping" then some .ping
  else if name = "WorkspaceCreate" then some .workspaceCreate
  else if name = "TaskQueue" then some .taskQueue
  else if name = "ProcessSpawn" then some .processSpawn
  else none

/-- Modelled from the spec: effect of each recognized command (section
4.3), applied at the Mutation Serializer so a rejected command returns
the state unchanged (section 7).  `Subscribe` mutates only the issuing
connection's subscription set, which is connection-local, so the shared
state is returned unchanged with a direct acknowledgement.  A parameter
payload not matching the command's schema is an `InvalidArgument`. -/
def applyCommand (s : SysState) (tag : CmdTag) (p : CmdParams) :
    Except CmdError Event × SysState :=
  match tag with
  | .createTask =>
    match p with
    | .create d =>
      match createTask s.board d with
      | .ok (b', ev) =>
        (.ok ev, { s with board := b',
                          queue := enqueue s.queue ⟨d.id, (priorityRank d.priority).getD 0⟩ })
      | .error e => (.error e, s)
    | _ => (.error .InvalidArgument, s)
  | .moveTask =>
    match p with
    | .move tid cid =>
      match moveTask s.board tid cid with
      | .ok (b', ev) => (.ok ev, { s with board := b' })
      | .error e => (.error e, s)
    | _ => (.error .InvalidArgument, s)
  | .updateTaskProgress =>
    match p with
    | .progress tid pr =>
      match updateProgress s.board tid pr with
      | .ok (b', ev) => (.ok ev, { s with board := b' })
      | .error e => (.error e, s)
    | _ => (.error .InvalidArgument, s)
  | .subscribe =>
    match p with
    | .subscribe _ => (.ok .Ack, s)
    | _ => (.error .InvalidArgument, s)
  | .requestFullUpdate => (.ok .TaskBoardUpdate, s)
  | .queryHistory =>
    match p with
    | .query _ t0 t1 lim =>
      if t0 > t1 then (.error .InvalidArgument, s)
      else
        (.ok (.HistoryResult ((s.history.filter
            (fun e => decide (t0 ≤ e.1) && decide (e.1 ≤ t1))).take lim)), s)
    | _ => (.error .InvalidArgument, s)
  | .ping => (.ok .Pong, s)
  | .workspaceCreate =>
    match p with
    | .wsCreate n tpl =>
      if s.workspaces.any (fun w => w.name == n) then (.error .Conflict, s)
      else (.ok .Ack, { s with workspaces := s.workspaces ++ [⟨n, tpl⟩] })
    | _ => (.error .InvalidArgument, s)
  | .taskQueue =>
    match p with
    | .taskQueue tid pr cmd =>
      if pr < 0 ∨ 10 < pr then (.error .InvalidArgument, s)
      else if taskExists s.board tid then (.error .Conflict, s)
      else
        match insertTask s.board ⟨tid, cmd, pr, 0⟩ with
        | some b' =>
          (.ok (.TaskUpdateCreated tid),
            { s with board := b', queue := enqueue s.queue ⟨tid, pr⟩ })
        | none => (.error .NotFound, s)
    | _ => (.error .InvalidArgument, s)
  | .processSpawn =>
    match p with
    | .procSpawn w cmd =>
      if s.workspaces.any (fun x => x.name == w) then
        (.ok (.AckProcess s.nextPid),
          { s with processes := s.processes ++ [⟨s.nextPid, w, cmd⟩],
                   nextPid := s.nextPid + 1 })
      else (.error .NotFound, s)
    | _ => (.error .InvalidArgument, s)

/-- Modelled from the spec: `dispatch(command, params)` of the Command
Router (section 4.3); an unrecognized command name fails with
`UnknownCommand` and leaves the state untouched. -/
def dispatch (s : SysState) (name : String) (p : CmdParams) :
    Except CmdError Event × SysState :=
  match parseCommand name with
  | some tag => applyCommand s tag p
  | none => (.error .UnknownCommand, s)

/-- Modelled from the spec: the default kanban columns of a fresh board;
the tests address a column named "in_progress". -/
def initialColumns : List Column :=
  [⟨"todo", "Todo", []⟩, ⟨"in_progress", "In Progress", []⟩, ⟨"done", "Done", []⟩]

/-- Empty board: no tasks, default columns with empty membership lists. -/
def emptyBoard : TaskBoard := ⟨[], initialColumns⟩

/-- Initial system state around the empty board. -/
def initState : SysState := ⟨emptyBoard, [], [], [], 0, []⟩

/-- Sequential application of committed command envelopes through the
Mutation Serializer (section 4.4 total order). -/
def run (s : SysState) : List (String × CmdParams) → SysState
  | [] => s
  | (n, p) :: rest => run (dispatch s n p).2 rest

/-- Modelled from the spec: event criticality for the Broadcast Hub's
overflow policy; the spec singles out `Heartbeat` as the redundant
non-critical class (section 4.5). -/
def isCritical : Event → Bool
  | .Heartbeat => false
  | _ => true

/-- Removal of the oldest pending non-critical event from an outbound
queue; `none` when every pending event is critical. -/
def dropOldestNonCritical : List Event → Option (List Event)
  | [] => none
  | e :: es =>
    if isCritical e then (dropOldestNonCritical es).map (fun es' => e :: es')
    else some es

/-- Modelled from the spec: the Broadcast Hub's per-connection bounded
outbound queue push (section 4.5): below the bound the event is
appended; at the bound the oldest pending non-critical event is dropped
first.  The spec leaves a full queue holding only critical events
undefined; the new event is still admitted so the writer path never
blocks. -/
def hubEnqueue (bound : Nat) (q : List Event) (ev : Event) : List Event :=
  if q.length < bound then q ++ [ev]
  else
    match dropOldestNonCritical q with
    | some q' => q' ++ [ev]
    | none => q ++ [ev]

lemma startupPenalty_nonneg (l : List (Option ℚ)) : 0 ≤ startupPenalty l := by
  unfold startupPenalty
  dsimp only
  split_ifs <;> norm_num

lemma memoryPenalty_nonneg (m : Option ℚ) : 0 ≤ memoryPenalty m := by
  unfold memoryPenalty
  cases m with
  | none => norm_num
  | some v =>
    dsimp only
    split_ifs <;> norm_num

lemma apiPenalty_nonneg (l : List (Option ℚ)) : 0 ≤ apiPenalty l := by
  unfold apiPenalty
  split_ifs <;> positivity

lemma stressPenalty_nonneg (w : Option StressWs) : 0 ≤ stressPenalty w := by
  unfold stressPenalty
  cases w with
  | none => norm_num
  | some v =>
    dsimp only
    split_ifs <;> norm_num

/-- C9: for every benchmark-results input, `generate_performance_score`
returns a score with `0 <= score <= 100`: it starts from 100, only ever
subtracts the fixed nonnegative penalties (30 or 15 for startup time, 25
or 10 for memory, 5 per slow API, 20 for stress-test failure), and clamps
the result at 0 via `max(0, score)`. -/
theorem generate_performance_score_bounds (r : BenchmarkResults) :
    0 ≤ generate_performance_score r ∧ generate_performance_score r ≤ 100 := by
  have h1 := startupPenalty_nonneg r.startup_time
  have h2 := memoryPenalty_nonneg r.memory_avg_mb
  have h3 := apiPenalty_nonneg r.api_response
  have h4 := stressPenalty_nonneg r.stress_ws
  unfold generate_performance_score
  constructor
  · exact le_max_left 0 _
  · omega

/-- C10: the score-to-rating mapping printed by `generate_performance_score`
and the score-to-CSS-class mapping of `generate_comprehensive_report` use
the same thresholds (>=90, >=70, >=50, else), so for every score the
printed tier and the report's `score_class` agree. -/
theorem reportScoreClass_eq_ratingClass (s : Int) :
    reportScoreClass s = ratingClass (scoreRating s) := by
  unfold reportScoreClass scoreRating ratingClass
  split_ifs <;> rfl

/-! ## Core theorems -/

lemma dequeue_eq_none_iff (l : List SchedEntry) : dequeue l = none ↔ l = [] := by
  cases l with
  | nil => simp [dequeue]
  | cons e es =>
    simp only [dequeue]
    cases h : dequeue es with
    | none => simp
    | some pr =>
      obtain ⟨e', es'⟩ := pr
      dsimp only
      split_ifs <;> simp

lemma dequeue_max :
    ∀ (l : List SchedEntry) (e : SchedEntry) (rest : List SchedEntry),
      dequeue l = some (e, rest) → ∀ x ∈ l, x.priority ≤ e.priority := by
  intro l
  induction l with
  | nil => intro e rest h; simp [dequeue] at h
  | cons a es ih =>
    intro e rest h x hx
    simp only [dequeue] at h
    cases hq : dequeue es with
    | none =>
      rw [hq] at h
      simp only [Option.some.injEq, Prod.mk.injEq] at h
      rcases h with ⟨he, -⟩
      have hes : es = [] := (dequeue_eq_none_iff es).mp hq
      subst hes
      rcases List.mem_singleton.mp hx with rfl
      exact he ▸ le_refl _
    | some pr =>
      obtain ⟨e', es'⟩ := pr
      rw [hq] at h
      dsimp only at h
      split_ifs at h with hgt <;>
        simp only [Option.some.injEq, Prod.mk.injEq] at h <;>
        rcases h with ⟨he, -⟩ <;> subst he
      · rcases List.mem_cons.mp hx with rfl | hx'
        · exact le_of_lt hgt
        · exact ih e' es' hq x hx'
      · rcases List.mem_cons.mp hx with rfl | hx'
        · exact le_refl _
        · exact le_trans (ih e' es' hq x hx') (not_lt.mp hgt)

lemma dequeue_decomp :
    ∀ (l : List SchedEntry) (e : SchedEntry) (rest : List SchedEntry),
      dequeue l = some (e, rest) →
      ∃ l₁ l₂, l = l₁ ++ e :: l₂ ∧ rest = l₁ ++ l₂ ∧
        ∀ x ∈ l₁, x.priority < e.priority := by
  intro l
  induction l with
  | nil => intro e rest h; simp [dequeue] at h
  | cons a es ih =>
    intro e rest h
    simp only [dequeue] at h
    cases hq : dequeue es with
    | none =>
      rw [hq] at h
      simp only [Option.some.injEq, Prod.mk.injEq] at h
      rcases h with ⟨he, hr⟩
      have hes : es = [] := (dequeue_eq_none_iff es).mp hq
      subst hes; subst he; subst hr
      exact ⟨[], [], rfl, rfl, by simp⟩
    | some pr =>
      obtain ⟨e', es'⟩ := pr
      rw [hq] at h
      dsimp only at h
      split_ifs at h with hgt <;>
        simp only [Option.some.injEq, Prod.mk.injEq] at h <;>
        rcases h with ⟨he, hr⟩ <;> subst he <;> subst hr
      · obtain ⟨l₁, l₂, hl, hr', hlt⟩ := ih e' es' hq
        refine ⟨a :: l₁, l₂, by simp [hl], by simp [hr'], ?_⟩
        intro x hx
        rcases List.mem_cons.mp hx with rfl | hx'
        · exact hgt
        · exact hlt x hx'
      · exact ⟨[], es, rfl, rfl, by simp⟩

/-- C4: the Priority Scheduler is a stable priority queue: dequeue removes
and returns the pending entry with the highest priority rank, ties broken
first-in-first-out by arrival order (the returned entry is preceded only
by strictly lower-priority entries and the remaining entries keep their
relative order); enqueuing priorities [5, 9, 5, 1] in that arrival order
yields dequeue order [9, first 5, second 5, 1]; dequeue on an empty queue
signals `Empty` (`none`). -/
theorem scheduler_stable_queue :
    (dequeue [] = none) ∧
    (∀ (l : List SchedEntry) (e : SchedEntry) (rest : List SchedEntry),
        dequeue l = some (e, rest) →
        (∀ x ∈ l, x.priority ≤ e.priority) ∧
        ∃ l₁ l₂, l = l₁ ++ e :: l₂ ∧ rest = l₁ ++ l₂ ∧
          ∀ x ∈ l₁, x.priority < e.priority) ∧
    (enqueue (enqueue (enqueue (enqueue [] ⟨"t1", 5⟩) ⟨"t2", 9⟩) ⟨"t3", 5⟩) ⟨"t4", 1⟩ =
        [⟨"t1", 5⟩, ⟨"t2", 9⟩, ⟨"t3", 5⟩, ⟨"t4", 1⟩] ∧
      dequeue [⟨"t1", 5⟩, ⟨"t2", 9⟩, ⟨"t3", 5⟩, ⟨"t4", 1⟩] =
        some (⟨"t2", 9⟩, [⟨"t1", 5⟩, ⟨"t3", 5⟩, ⟨"t4", 1⟩]) ∧
      dequeue [⟨"t1", 5⟩, ⟨"t3", 5⟩, ⟨"t4", 1⟩] =
        some (⟨"t1", 5⟩, [⟨"t3", 5⟩, ⟨"t4", 1⟩]) ∧
      dequeue [⟨"t3", 5⟩, ⟨"t4", 1⟩] = some (⟨"t3", 5⟩, [⟨"t4", 1⟩]) ∧
      dequeue [⟨"t4", 1⟩] = some (⟨"t4", 1⟩, [])) := by
  refine ⟨rfl, ?_, by decide⟩
  intro l e rest h
  exact ⟨dequeue_max l e rest h, dequeue_decomp l e rest h⟩

/-- Witness for C4 at a concrete queue. -/
theorem scheduler_stable_queue_witness :
    (SchedEntry.mk "t1" 5).priority ≤ (SchedEntry.mk "t2" 9).priority :=
  (scheduler_stable_queue.2.1 [⟨"t1", 5⟩, ⟨"t2", 9⟩] ⟨"t2", 9⟩ [⟨"t1", 5⟩]
      (by decide)).1 ⟨"t1", 5⟩ (by decide)

/-- C2: dispatch of a command envelope whose name is not one of the ten
recognized commands fails with `UnknownCommand` and leaves the whole
state (task board, workspace registry, process registry, scheduler)
unchanged; `ExecuteAction`, the wrapper name the WebSocket test clients
use, is such an unrecognized name. -/
theorem dispatch_unrecognized_unknownCommand :
    (∀ (s : SysState) (name : String) (p : CmdParams),
        name ∉ recognizedCommands →
        dispatch s name p = (.error .UnknownCommand, s)) ∧
    "ExecuteAction" ∉ recognizedCommands := by
  constructor
  · intro s name p h
    simp only [recognizedCommands, List.mem_cons, List.not_mem_nil, or_false] at h
    push_neg at h
    obtain ⟨h1, h2, h3, h4, h5, h6, h7, h8, h9, h10⟩ := h
    have hparse : parseCommand name = none := by
      unfold parseCommand
      rw [if_neg h1, if_neg h2, if_neg h3, if_neg h4, if_neg h5, if_neg h6,
          if_neg h7, if_neg h8, if_neg h9, if_neg h10]
    unfold dispatch
    rw [hparse]
  · decide

/-- Witness for C2 at the `ExecuteAction` wrapper name. -/
theorem dispatch_unrecognized_witness :
    dispatch initState "ExecuteAction" .unit = (.error .UnknownCommand, initState) :=
  dispatch_unrecognized_unknownCommand.1 initState "ExecuteAction" .unit (by decide)

/-- C8: dispatching the IPC `Ping` request returns `Pong` for every state
and parameter payload; the result does not depend on the state and the
state is unchanged. -/
theorem dispatch_ping_pong (s : SysState) (p : CmdParams) :
    dispatch s "Ping" p = (.ok .Pong, s) := rfl

lemma any_id_map_setProgress (ts : List Task) (tid x : String) (p : Int) :
    (ts.map (fun t => if t.id == tid then { t with progress := p } else t)).any
        (fun t => t.id == x) = ts.any (fun t => t.id == x) := by
  induction ts with
  | nil => rfl
  | cons t ts ih =>
    simp only [List.map_cons, List.any_cons, ih]
    congr 1
    split_ifs <;> rfl

/-- C3: for every task present on the board, `UpdateTaskProgress` with a
percent outside 0-100 fails with `InvalidArgument` leaving the whole
model state (in particular the task's prior progress) unchanged — the
value is rejected, never clamped; with a percent inside 0-100 the
command succeeds and the task's progress becomes exactly that percent. -/
theorem updateProgress_rejects_out_of_range (s : SysState) (tid : String) (p : Int)
    (hex : taskExists s.board tid = true) :
    ((p < 0 ∨ 100 < p) →
        dispatch s "UpdateTaskProgress" (.progress tid p) = (.error .InvalidArgument, s)) ∧
    (0 ≤ p → p ≤ 100 →
        (dispatch s "UpdateTaskProgress" (.progress tid p)).1 = .ok (.TaskProgress tid p) ∧
        taskExists (dispatch s "UpdateTaskProgress" (.progress tid p)).2.board tid = true ∧
        ∀ t ∈ (dispatch s "UpdateTaskProgress" (.progress tid p)).2.board.tasks,
          t.id = tid → t.progress = p) := by
  have hd : dispatch s "UpdateTaskProgress" (.progress tid p) =
      (match updateProgress s.board tid p with
        | .ok (b', ev) => (.ok ev, { s with board := b' })
        | .error e => (.error e, s)) := rfl
  constructor
  · intro hout
    rw [hd]
    unfold updateProgress
    rw [if_pos hex, if_pos hout]
  · intro h0 h100
    have hin : ¬(p < 0 ∨ 100 < p) := by omega
    rw [hd]
    unfold updateProgress
    rw [if_pos hex, if_neg hin]
    dsimp only
    refine ⟨rfl, ?_, ?_⟩
    · unfold taskExists at hex ⊢
      dsimp only
      rw [any_id_map_setProgress]
      exact hex
    · intro t ht htid
      simp only [List.mem_map] at ht
      obtain ⟨u, hu, rfl⟩ := ht
      by_cases hcase : u.id == tid
      · simp [hcase]
      · rw [if_neg hcase] at htid ⊢
        exact absurd (by exact beq_iff_eq.mpr htid) hcase

/-- Witness for C3 at a concrete one-task board and percent 150. -/
theorem updateProgress_rejects_witness :
    dispatch ⟨⟨[⟨"t1", "T", 5, 0⟩], initialColumns⟩, [], [], [], 0, []⟩
        "UpdateTaskProgress" (.progress "t1" 150) =
      (.error .InvalidArgument, ⟨⟨[⟨"t1", "T", 5, 0⟩], initialColumns⟩, [], [], [], 0, []⟩) :=
  (updateProgress_rejects_out_of_range
      ⟨⟨[⟨"t1", "T", 5, 0⟩], initialColumns⟩, [], [], [], 0, []⟩ "t1" 150
      (by decide)).1 (by decide)

lemma moveTask_notFound_iff (b : TaskBoard) (tid cid : String) :
    moveTask b tid cid = .error .NotFound ↔
      (taskExists b tid = false ∨ findColumn b cid = none) := by
  unfold moveTask
  by_cases he : taskExists b tid
  · rw [if_pos he]
    cases hc : findColumn b cid with
    | none => simp [he]
    | some c =>
      dsimp only
      split_ifs with hmem <;> simp [he]
  · rw [if_neg he]
    rw [Bool.not_eq_true] at he
    simp [he]

lemma find_addToColumn :
    ∀ (cols : List Column) (cid tid : String), (∃ c ∈ cols, c.id = cid) →
      ∃ c', (addToColumn cols cid tid).find? (fun c => c.id == cid) = some c' ∧
        tid ∈ c'.tasks := by
  intro cols cid tid h
  induction cols with
  | nil => simp at h
  | cons c cs ih =>
    by_cases hc : c.id == cid
    · refine ⟨{ c with tasks := c.tasks ++ [tid] }, ?_, by simp⟩
      simp [addToColumn, hc, List.find?]
    · obtain ⟨c0, hc0, hid⟩ := h
      rcases List.mem_cons.mp hc0 with rfl | hmem
      · exact absurd (beq_iff_eq.mpr hid) hc
      · obtain ⟨c', hfind, hmemt⟩ := ih ⟨c0, hmem, hid⟩
        refine ⟨c', ?_, hmemt⟩
        simpa [addToColumn, hc, List.find?] using hfind

lemma mem_removeEverywhere_of_mem (cols : List Column) (tid : String)
    {c : Column} (hc : c ∈ cols) :
    { c with tasks := c.tasks.filter (fun x => x != tid) } ∈ removeEverywhere cols tid :=
  List.mem_map.mpr ⟨c, hc, rfl⟩

lemma applyMove_of_error (b : TaskBoard) (tid cid : String) (e : CmdError)
    (h : moveTask b tid cid = .error e) : applyMove b tid cid = b := by
  unfold applyMove
  rw [h]

lemma applyMove_of_ok (b b' : TaskBoard) (tid cid : String) (ev : Event)
    (h : moveTask b tid cid = .ok (b', ev)) : applyMove b tid cid = b' := by
  unfold applyMove
  rw [h]

lemma applyMove_idem (b : TaskBoard) (tid cid : String) :
    applyMove (applyMove b tid cid) tid cid = applyMove b tid cid := by
  by_cases he : taskExists b tid
  case neg =>
    have hmv : moveTask b tid cid = .error .NotFound := by
      unfold moveTask
      rw [if_neg he]
    rw [applyMove_of_error _ _ _ _ hmv]
    rw [applyMove_of_error _ _ _ _ hmv]
  case pos =>
    cases hc : findColumn b cid with
    | none =>
      have hmv : moveTask b tid cid = .error .NotFound := by
        unfold moveTask
        rw [if_pos he, hc]
      rw [applyMove_of_error _ _ _ _ hmv]
      rw [applyMove_of_error _ _ _ _ hmv]
    | some c =>
      by_cases hmem : tid ∈ c.tasks
      · have hmv : moveTask b tid cid = .ok (b, .TaskMoved tid cid) := by
          unfold moveTask
          rw [if_pos he, hc]
          dsimp only
          rw [if_pos hmem]
        rw [applyMove_of_ok _ _ _ _ _ hmv]
        rw [applyMove_of_ok _ _ _ _ _ hmv]
      · have hmv : moveTask b tid cid =
            .ok ({ b with columns := addToColumn (removeEverywhere b.columns tid) cid tid },
                  .TaskMoved tid cid) := by
          unfold moveTask
          rw [if_pos he, hc]
          dsimp only
          rw [if_neg hmem]
        rw [applyMove_of_ok _ _ _ _ _ hmv]
        have he' : taskExists
            { b with columns := addToColumn (removeEverywhere b.columns tid) cid tid } tid
              = true := he
        have hcol : ∃ c2 ∈ removeEverywhere b.columns tid, c2.id = cid := by
          have hc2 : b.columns.find? (fun col => col.id == cid) = some c := hc
          have hcmem : c ∈ b.columns := List.mem_of_find?_eq_some hc2
          have hcid0 := List.find?_some hc2
          have hcid : c.id = cid := by simpa using hcid0
          exact ⟨{ c with tasks := c.tasks.filter (fun x => x != tid) },
            mem_removeEverywhere_of_mem b.columns tid hcmem, hcid⟩
        obtain ⟨c', hfind, hmemt⟩ := find_addToColumn _ cid tid hcol
        have hmv' : moveTask
            { b with columns := addToColumn (removeEverywhere b.columns tid) cid tid } tid cid =
            .ok ({ b with columns := addToColumn (removeEverywhere b.columns tid) cid tid },
                  .TaskMoved tid cid) := by
          unfold moveTask
          rw [if_pos he']
          have hc' : findColumn
              { b with columns := addToColumn (removeEverywhere b.columns tid) cid tid } cid
                = some c' := hfind
          rw [hc']
          dsimp only
          rw [if_pos hmemt]
        rw [applyMove_of_ok _ _ _ _ _ hmv']

/-- C5: `moveTask(taskId, targetColumn)` fails with `NotFound` exactly
when the task or the target column does not exist; when the task is
already in the target column it returns success and changes nothing; and
applying `moveTask` twice with the same arguments produces the same
board state as applying it once (idempotence). -/
theorem moveTask_notFound_noop_idempotent (b : TaskBoard) (tid cid : String) :
    (moveTask b tid cid = .error .NotFound ↔
      (taskExists b tid = false ∨ findColumn b cid = none)) ∧
    (∀ c, taskExists b tid = true → findColumn b cid = some c → tid ∈ c.tasks →
      moveTask b tid cid = .ok (b, .TaskMoved tid cid)) ∧
    applyMove (applyMove b tid cid) tid cid = applyMove b tid cid := by
  refine ⟨moveTask_notFound_iff b tid cid, ?_, applyMove_idem b tid cid⟩
  intro c he hc hmem
  unfold moveTask
  rw [if_pos he, hc]
  dsimp only
  rw [if_pos hmem]

/-- Witness for C5 at a concrete board where the task already sits in the
target column. -/
theorem moveTask_noop_witness :
    moveTask ⟨[⟨"t1", "T", 5, 0⟩], [⟨"todo", "Todo", ["t1"]⟩]⟩ "t1" "todo" =
      .ok (⟨[⟨"t1", "T", 5, 0⟩], [⟨"todo", "Todo", ["t1"]⟩]⟩, .TaskMoved "t1" "todo") :=
  (moveTask_notFound_noop_idempotent ⟨[⟨"t1", "T", 5, 0⟩], [⟨"todo", "Todo", ["t1"]⟩]⟩
      "t1" "todo").2.1 ⟨"todo", "Todo", ["t1"]⟩ (by decide) (by decide) (by decide)

lemma columnsCount_cons (c : Column) (cs : List Column) (tid : String) :
    columnsCount (c :: cs) tid = c.tasks.count tid + columnsCount cs tid := rfl

lemma count_filter_ne_self (l : List String) (tid : String) :
    (l.filter (fun x => x != tid)).count tid = 0 :=
  List.count_eq_zero.mpr (by simp [List.mem_filter])

lemma count_filter_ne_other (l : List String) (tid x : String) (h : x ≠ tid) :
    (l.filter (fun y => y != tid)).count x = l.count x := by
  induction l with
  | nil => rfl
  | cons a l ih =>
    rw [List.filter_cons]
    by_cases ha : (a != tid) = true
    · rw [if_pos ha, List.count_cons, List.count_cons, ih]
    · have hatid : a = tid := by simpa using ha
      subst hatid
      rw [if_neg ha, ih, List.count_cons]
      have hax : (a == x) = false := beq_eq_false_iff_ne.mpr (Ne.symm h)
      rw [hax]
      simp

lemma columnsCount_removeEverywhere_self (cols : List Column) (tid : String) :
    columnsCount (removeEverywhere cols tid) tid = 0 := by
  induction cols with
  | nil => rfl
  | cons c cs ih =>
    show (c.tasks.filter (fun x => x != tid)).count tid +
      columnsCount (removeEverywhere cs tid) tid = 0
    rw [count_filter_ne_self, ih]

lemma columnsCount_removeEverywhere_other (cols : List Column) (tid x : String)
    (h : x ≠ tid) :
    columnsCount (removeEverywhere cols tid) x = columnsCount cols x := by
  induction cols with
  | nil => rfl
  | cons c cs ih =>
    show (c.tasks.filter (fun y => y != tid)).count x +
      columnsCount (removeEverywhere cs tid) x = c.tasks.count x + columnsCount cs x
    rw [count_filter_ne_other _ _ _ h, ih]

lemma columnsCount_addToColumn_self (cols : List Column) (cid tid : String)
    (h : ∃ c ∈ cols, c.id = cid) :
    columnsCount (addToColumn cols cid tid) tid = columnsCount cols tid + 1 := by
  induction cols with
  | nil => simp at h
  | cons c cs ih =>
    unfold addToColumn
    split_ifs with hc
    · rw [columnsCount_cons, columnsCount_cons]
      dsimp only
      rw [List.count_append]
      have hone : ([tid] : List String).count tid = 1 := by simp
      omega
    · obtain ⟨c0, hc0, hid⟩ := h
      rcases List.mem_cons.mp hc0 with rfl | hmem
      · exact absurd (beq_iff_eq.mpr hid) hc
      · rw [columnsCount_cons, columnsCount_cons, ih ⟨c0, hmem, hid⟩]
        omega

lemma columnsCount_addToColumn_other (cols : List Column) (cid tid x : String)
    (h : x ≠ tid) :
    columnsCount (addToColumn cols cid tid) x = columnsCount cols x := by
  induction cols with
  | nil => rfl
  | cons c cs ih =>
    unfold addToColumn
    split_ifs with hc
    · rw [columnsCount_cons, columnsCount_cons]
      dsimp only
      rw [List.count_append]
      have hzero : ([tid] : List String).count x = 0 := by
        simp [List.count_singleton', h]
      omega
    · rw [columnsCount_cons, columnsCount_cons, ih]

lemma exists_mem_of_columnsCount_pos (cols : List Column) (x : String)
    (h : columnsCount cols x ≠ 0) : ∃ c ∈ cols, x ∈ c.tasks := by
  induction cols with
  | nil => exact absurd rfl h
  | cons c cs ih =>
    rw [columnsCount_cons] at h
    by_cases hc : c.tasks.count x = 0
    · rw [hc] at h
      simp only [Nat.zero_add] at h
      obtain ⟨c', hc', hx⟩ := ih h
      exact ⟨c', List.mem_cons_of_mem _ hc', hx⟩
    · exact ⟨c, List.mem_cons_self _ _,
        List.count_pos_iff.mp (Nat.pos_of_ne_zero hc)⟩

lemma taskIdCount_tasks_append (ts : List Task) (cols : List Column) (t : Task)
    (x : String) :
    taskIdCount ⟨ts ++ [t], cols⟩ x =
      taskIdCount ⟨ts, cols⟩ x + (if t.id = x then 1 else 0) := by
  unfold taskIdCount
  dsimp only
  rw [List.filter_append, List.length_append]
  congr 1
  by_cases h : t.id = x
  · simp [h]
  · simp [h]

lemma taskIdCount_pos_of_mem (b : TaskBoard) (u : Task) (hu : u ∈ b.tasks) :
    taskIdCount b u.id ≠ 0 := by
  unfold taskIdCount
  intro hzero
  rw [List.length_eq_zero] at hzero
  have : u ∈ b.tasks.filter (fun t => t.id == u.id) :=
    List.mem_filter.mpr ⟨hu, by simp⟩
  rw [hzero] at this
  exact absurd this (List.not_mem_nil u)

lemma taskIdCount_eq_zero_of_not_exists (b : TaskBoard) (x : String)
    (h : taskExists b x = false) : taskIdCount b x = 0 := by
  unfold taskExists at h
  rw [List.any_eq_false] at h
  unfold taskIdCount
  rw [List.length_eq_zero, List.filter_eq_nil_iff]
  exact h

lemma memberCount_eq_zero_of_not_exists (b : TaskBoard) (x : String)
    (hinv : BoardInv b) (h : taskExists b x = false) : memberCount b x = 0 := by
  by_contra hne
  obtain ⟨c, hc, hx⟩ := exists_mem_of_columnsCount_pos b.columns x hne
  have h1 : taskIdCount b x = 1 := hinv.1 c hc x hx
  rw [taskIdCount_eq_zero_of_not_exists b x h] at h1
  exact absurd h1 (by omega)

lemma BoardInv_insert (b : TaskBoard) (t : Task) (b' : TaskBoard)
    (hinv : BoardInv b) (hfresh : taskExists b t.id = false)
    (hins : insertTask b t = some b') :
    BoardInv b' ∧ taskIdCount b' t.id = 1 ∧ memberCount b' t.id = 1 := by
  have hmc0 : memberCount b t.id = 0 := memberCount_eq_zero_of_not_exists b t.id hinv hfresh
  have htc0 : taskIdCount b t.id = 0 := taskIdCount_eq_zero_of_not_exists b t.id hfresh
  unfold insertTask at hins
  cases hcb : b.columns with
  | nil => rw [hcb] at hins; exact absurd hins (by simp)
  | cons c rest =>
    rw [hcb] at hins
    dsimp only at hins
    injection hins with hb'
    subst hb'
    have hcount_c : c.tasks.count t.id = 0 ∧ columnsCount rest t.id = 0 := by
      have : memberCount b t.id = c.tasks.count t.id + columnsCount rest t.id := by
        unfold memberCount
        rw [hcb, columnsCount_cons]
      omega
    have htc' : ∀ x, taskIdCount ({ b with tasks := b.tasks ++ [t], columns := { c with tasks := c.tasks ++ [t.id] } :: rest } : TaskBoard) x = taskIdCount b x + (if t.id = x then 1 else 0) := by
      intro x
      have := taskIdCount_tasks_append b.tasks
        ({ c with tasks := c.tasks ++ [t.id] } :: rest) t x
      unfold taskIdCount at this ⊢
      exact this
    have hmc' : ∀ x, memberCount ({ b with tasks := b.tasks ++ [t], columns := { c with tasks := c.tasks ++ [t.id] } :: rest } : TaskBoard) x = memberCount b x + (if x = t.id then 1 else 0) := by
      intro x
      unfold memberCount
      dsimp only
      rw [columnsCount_cons, hcb, columnsCount_cons]
      dsimp only
      rw [List.count_append]
      by_cases hx : x = t.id
      · subst hx
        have hone : ([t.id] : List String).count t.id = 1 := by simp
        rw [if_pos rfl]
        omega
      · have hzero : ([t.id] : List String).count x = 0 := by
          rw [List.count_singleton']
          split_ifs with hh
          · exact absurd hh.symm hx
          · rfl
        rw [if_neg hx]
        omega
    refine ⟨⟨?_, ?_, ?_⟩, ?_, ?_⟩
    · intro col hcol y hy
      rw [htc' y]
      rcases List.mem_cons.mp hcol with rfl | hrest
      · dsimp only at hy
        rcases List.mem_append.mp hy with hyc | hyt
        · have h1 : taskIdCount b y = 1 := hinv.1 c (hcb ▸ List.mem_cons_self c rest) y hyc
          have hne : t.id ≠ y := by
            intro he
            subst he
            have := List.count_pos_iff.mpr hyc
            omega
          rw [if_neg hne]
          omega
        · have hyt' : y = t.id := List.mem_singleton.mp hyt
          subst hyt'
          rw [if_pos rfl]
          omega
      · have h1 : taskIdCount b y = 1 :=
          hinv.1 col (hcb ▸ List.mem_cons_of_mem c hrest) y hy
        by_cases he : t.id = y
        · subst he
          rw [if_pos rfl]
          omega
        · rw [if_neg he]
          omega
    · intro u hu
      dsimp only at hu
      rw [hmc' u.id]
      rcases List.mem_append.mp hu with hub | hut
      · have h1 : memberCount b u.id = 1 := hinv.2.1 u hub
        have hne : u.id ≠ t.id := by
          intro he
          exact taskIdCount_pos_of_mem b u hub (he ▸ htc0)
        rw [if_neg hne]
        omega
      · have hut' : u = t := List.mem_singleton.mp hut
        subst hut'
        rw [if_pos rfl]
        omega
    · intro col hcol
      rcases List.mem_cons.mp hcol with rfl | hrest
      · dsimp only
        have hnod : c.tasks.Nodup := hinv.2.2 c (hcb ▸ List.mem_cons_self c rest)
        have hnotin : t.id ∉ c.tasks := by
          intro hmem
          have := List.count_pos_iff.mpr hmem
          omega
        simp [List.nodup_append, hnod, hnotin]
      · exact hinv.2.2 col (hcb ▸ List.mem_cons_of_mem c hrest)
    · rw [htc' t.id, if_pos rfl]
      omega
    · rw [hmc' t.id, if_pos rfl]
      omega

lemma mem_tasks_removeEverywhere (cols : List Column) (tid : String) {col : Column}
    {y : String} (hcol : col ∈ removeEverywhere cols tid) (hy : y ∈ col.tasks) :
    ∃ c0 ∈ cols, y ∈ c0.tasks := by
  unfold removeEverywhere at hcol
  obtain ⟨c0, hc0, rfl⟩ := List.mem_map.mp hcol
  exact ⟨c0, hc0, List.mem_of_mem_filter hy⟩

lemma mem_tasks_addToColumn (cols : List Column) (cid tid : String) {col : Column}
    {y : String} (hcol : col ∈ addToColumn cols cid tid) (hy : y ∈ col.tasks) :
    y = tid ∨ ∃ c0 ∈ cols, y ∈ c0.tasks := by
  induction cols with
  | nil => simp [addToColumn] at hcol
  | cons c cs ih =>
    unfold addToColumn at hcol
    split_ifs at hcol with hc
    · rcases List.mem_cons.mp hcol with rfl | hmem
      · dsimp only at hy
        rcases List.mem_append.mp hy with hyc | hyt
        · exact Or.inr ⟨c, List.mem_cons_self _ _, hyc⟩
        · exact Or.inl (List.mem_singleton.mp hyt)
      · exact Or.inr ⟨col, List.mem_cons_of_mem _ hmem, hy⟩
    · rcases List.mem_cons.mp hcol with rfl | hmem
      · exact Or.inr ⟨col, List.mem_cons_self _ _, hy⟩
      · rcases ih hmem with h | ⟨c0, hc0, hyc0⟩
        · exact Or.inl h
        · exact Or.inr ⟨c0, List.mem_cons_of_mem _ hc0, hyc0⟩

lemma nodup_addToColumn (cols : List Column) (cid tid : String)
    (h1 : ∀ c ∈ cols, c.tasks.Nodup) (h2 : ∀ c ∈ cols, tid ∉ c.tasks) :
    ∀ c ∈ addToColumn cols cid tid, c.tasks.Nodup := by
  induction cols with
  | nil => intro c hc; simp [addToColumn] at hc
  | cons c cs ih =>
    intro col hcol
    unfold addToColumn at hcol
    split_ifs at hcol with hc
    · rcases List.mem_cons.mp hcol with rfl | hmem
      · dsimp only
        have hnod := h1 c (List.mem_cons_self _ _)
        have hni := h2 c (List.mem_cons_self _ _)
        simp [List.nodup_append, hnod, hni]
      · exact h1 col (List.mem_cons_of_mem _ hmem)
    · rcases List.mem_cons.mp hcol with rfl | hmem
      · exact h1 col (List.mem_cons_self _ _)
      · exact ih (fun c2 hc2 => h1 c2 (List.mem_cons_of_mem _ hc2))
          (fun c2 hc2 => h2 c2 (List.mem_cons_of_mem _ hc2)) col hmem

lemma BoardInv_move (b : TaskBoard) (tid cid : String) (b' : TaskBoard) (ev : Event)
    (hinv : BoardInv b) (hmv : moveTask b tid cid = .ok (b', ev)) : BoardInv b' := by
  unfold moveTask at hmv
  by_cases he : taskExists b tid
  case neg => rw [if_neg he] at hmv; exact absurd hmv (by simp)
  case pos =>
    rw [if_pos he] at hmv
    cases hc : findColumn b cid with
    | none => rw [hc] at hmv; exact absurd hmv (by simp)
    | some c =>
      rw [hc] at hmv
      dsimp only at hmv
      by_cases hmem : tid ∈ c.tasks
      · rw [if_pos hmem] at hmv
        simp only [Except.ok.injEq, Prod.mk.injEq] at hmv
        obtain ⟨rfl, -⟩ := hmv
        exact hinv
      · rw [if_neg hmem] at hmv
        simp only [Except.ok.injEq, Prod.mk.injEq] at hmv
        obtain ⟨hb, -⟩ := hmv
        subst hb
        have hcol : ∃ c2 ∈ removeEverywhere b.columns tid, c2.id = cid := by
          have hc2 : b.columns.find? (fun col => col.id == cid) = some c := hc
          have hcmem : c ∈ b.columns := List.mem_of_find?_eq_some hc2
          have hcid0 := List.find?_some hc2
          have hcid : c.id = cid := by simpa using hcid0
          exact ⟨{ c with tasks := c.tasks.filter (fun x => x != tid) },
            mem_removeEverywhere_of_mem b.columns tid hcmem, hcid⟩
        have htid1 : taskIdCount b tid = 1 := by
          unfold taskExists at he
          rw [List.any_eq_true] at he
          obtain ⟨u, hu, hid⟩ := he
          have hid' : u.id = tid := by simpa using hid
          have hm : memberCount b u.id = 1 := hinv.2.1 u hu
          have hpos : columnsCount b.columns tid ≠ 0 := by
            rw [← hid']
            unfold memberCount at hm
            omega
          obtain ⟨c2, hc2, hmem2⟩ := exists_mem_of_columnsCount_pos b.columns tid hpos
          exact hinv.1 c2 hc2 tid hmem2
        have hmC : ∀ x, memberCount ({ b with columns := addToColumn (removeEverywhere b.columns tid) cid tid } : TaskBoard) x = if x = tid then 1 else memberCount b x := by
          intro x
          unfold memberCount
          dsimp only
          by_cases hx : x = tid
          · subst hx
            rw [columnsCount_addToColumn_self _ _ _ hcol,
              columnsCount_removeEverywhere_self, if_pos rfl]
          · rw [columnsCount_addToColumn_other _ _ _ _ hx,
              columnsCount_removeEverywhere_other _ _ _ hx, if_neg hx]
        refine ⟨?_, ?_, ?_⟩
        · intro col hcol2 y hy
          dsimp only at hcol2
          rcases mem_tasks_addToColumn _ _ _ hcol2 hy with rfl | ⟨c2, hc2, hyc2⟩
          · exact htid1
          · obtain ⟨c0, hc0, hyc0⟩ := mem_tasks_removeEverywhere _ _ hc2 hyc2
            exact hinv.1 c0 hc0 y hyc0
        · intro u hu
          rw [hmC u.id]
          by_cases hx : u.id = tid
          · rw [if_pos hx]
          · rw [if_neg hx]
            exact hinv.2.1 u hu
        · intro col hcol2
          dsimp only at hcol2
          refine nodup_addToColumn (removeEverywhere b.columns tid) cid tid ?_ ?_ col hcol2
          · intro c2 hc2
            obtain ⟨c0, hc0, rfl⟩ := List.mem_map.mp hc2
            exact List.Nodup.filter _ (hinv.2.2 c0 hc0)
          · intro c2 hc2
            obtain ⟨c0, hc0, rfl⟩ := List.mem_map.mp hc2
            intro hmem2
            have hmf := List.mem_filter.mp hmem2
            simp at hmf

lemma length_filter_map_setProgress (ts : List Task) (tid x : String) (p : Int) :
    ((ts.map (fun t => if t.id == tid then { t with progress := p } else t)).filter
        (fun t => t.id == x)).length = (ts.filter (fun t => t.id == x)).length := by
  induction ts with
  | nil => rfl
  | cons t ts ih =>
    rw [List.map_cons, List.filter_cons, List.filter_cons]
    have hid : ((if t.id == tid then { t with progress := p } else t) : Task).id = t.id := by
      split_ifs <;> rfl
    rw [hid]
    by_cases h : (t.id == x) = true
    · rw [if_pos h, if_pos h, List.length_cons, List.length_cons, ih]
    · rw [if_neg h, if_neg h]
      exact ih

lemma BoardInv_updateProgress (b : TaskBoard) (tid : String) (p : Int)
    (b' : TaskBoard) (ev : Event) (hinv : BoardInv b)
    (h : updateProgress b tid p = .ok (b', ev)) : BoardInv b' := by
  unfold updateProgress at h
  by_cases he : taskExists b tid
  case neg => rw [if_neg he] at h; exact absurd h (by simp)
  case pos =>
    rw [if_pos he] at h
    by_cases hr : p < 0 ∨ 100 < p
    · rw [if_pos hr] at h
      exact absurd h (by simp)
    · rw [if_neg hr] at h
      simp only [Except.ok.injEq, Prod.mk.injEq] at h
      obtain ⟨hb, -⟩ := h
      subst hb
      refine ⟨?_, ?_, ?_⟩
      · intro col hcol y hy
        have h1 := hinv.1 col hcol y hy
        unfold taskIdCount at h1 ⊢
        dsimp only
        rw [length_filter_map_setProgress]
        exact h1
      · intro u hu
        dsimp only at hu
        rw [List.mem_map] at hu
        obtain ⟨u0, hu0, rfl⟩ := hu
        have hid : ((if u0.id == tid then { u0 with progress := p } else u0) : Task).id
            = u0.id := by
          split_ifs <;> rfl
        rw [hid]
        exact hinv.2.1 u0 hu0
      · exact hinv.2.2

lemma createTask_ok_inv (b : TaskBoard) (d : TaskData) (b' : TaskBoard) (ev : Event)
    (hinv : BoardInv b) (h : createTask b d = .ok (b', ev)) :
    BoardInv b' ∧ taskIdCount b' d.id = 1 ∧ memberCount b' d.id = 1 := by
  unfold createTask at h
  by_cases ht : d.title = ""
  · rw [if_pos ht] at h
    exact absurd h (by simp)
  · rw [if_neg ht] at h
    by_cases hcat : (categories.contains d.category) = true
    case neg => rw [if_neg hcat] at h; exact absurd h (by simp)
    case pos =>
      rw [if_pos hcat] at h
      cases hpr : priorityRank d.priority with
      | none => rw [hpr] at h; exact absurd h (by simp)
      | some rank =>
        rw [hpr] at h
        dsimp only at h
        by_cases hex : taskExists b d.id
        · rw [if_pos hex] at h
          exact absurd h (by simp)
        · rw [if_neg hex] at h
          cases hins : insertTask b ⟨d.id, d.title, rank, 0⟩ with
          | none => rw [hins] at h; exact absurd h (by simp)
          | some b2 =>
            rw [hins] at h
            dsimp only at h
            simp only [Except.ok.injEq, Prod.mk.injEq] at h
            obtain ⟨hb, -⟩ := h
            subst hb
            exact BoardInv_insert b ⟨d.id, d.title, rank, 0⟩ b2 hinv (by simpa using hex) hins

lemma applyCommand_preserves_BoardInv (s : SysState) (tag : CmdTag) (p : CmdParams)
    (hinv : BoardInv s.board) : BoardInv (applyCommand s tag p).2.board := by
  unfold applyCommand
  cases tag <;> cases p <;> (try dsimp only) <;> (try exact hinv)
  · rename_i d
    cases hct : createTask s.board d with
    | error e => exact hinv
    | ok pr =>
      obtain ⟨b', ev⟩ := pr
      exact (createTask_ok_inv s.board d b' ev hinv hct).1
  · rename_i tid cid
    cases hmv : moveTask s.board tid cid with
    | error e => exact hinv
    | ok pr =>
      obtain ⟨b', ev⟩ := pr
      exact BoardInv_move s.board tid cid b' ev hinv hmv
  · rename_i tid pr
    cases hup : updateProgress s.board tid pr with
    | error e => exact hinv
    | ok pr2 =>
      obtain ⟨b', ev⟩ := pr2
      exact BoardInv_updateProgress s.board tid pr b' ev hinv hup
  · split_ifs <;> exact hinv
  · split_ifs <;> exact hinv
  · rename_i tid pr cmd
    split_ifs with hr hex
    · exact hinv
    · exact hinv
    · cases hins : insertTask s.board ⟨tid, cmd, pr, 0⟩ with
      | none => exact hinv
      | some b2 =>
        exact (BoardInv_insert s.board ⟨tid, cmd, pr, 0⟩ b2 hinv (by simpa using hex) hins).1
  · split_ifs <;> exact hinv

lemma dispatch_preserves_BoardInv (s : SysState) (name : String) (p : CmdParams)
    (hinv : BoardInv s.board) : BoardInv (dispatch s name p).2.board := by
  unfold dispatch
  cases parseCommand name with
  | none => exact hinv
  | some tag => exact applyCommand_preserves_BoardInv s tag p hinv

lemma run_preserves_BoardInv :
    ∀ (cmds : List (String × CmdParams)) (s : SysState),
      BoardInv s.board → BoardInv (run s cmds).board := by
  intro cmds
  induction cmds with
  | nil => intro s h; exact h
  | cons c rest ih =>
    intro s h
    obtain ⟨n, p⟩ := c
    exact ih (dispatch s n p).2 (dispatch_preserves_BoardInv s n p h)

/-- C1: for every sequence of committed commands starting from the empty
board, the Task Board invariant holds: every task id referenced by any
column's membership list exists in the board's task table exactly once,
every task belongs to exactly one column's membership list (so no column
contains a duplicate task id); in particular, after every valid
`createTask` the new task appears in the task table exactly once and in
exactly one column. -/
theorem board_invariant_preserved (cmds : List (String × CmdParams)) :
    BoardInv (run initState cmds).board ∧
    ∀ (b b' : TaskBoard) (d : TaskData) (ev : Event),
      BoardInv b → createTask b d = .ok (b', ev) →
      taskIdCount b' d.id = 1 ∧ memberCount b' d.id = 1 :=
  ⟨run_preserves_BoardInv cmds initState (by decide),
   fun b b' d ev hinv hok => (createTask_ok_inv b d b' ev hinv hok).2⟩

/-- Witness for C1: one concrete `createTask` from the empty board. -/
theorem board_invariant_witness :
    taskIdCount ⟨[⟨"t1", "Fix auth", 10, 0⟩], [⟨"todo", "Todo", ["t1"]⟩, ⟨"in_progress", "In Progress", []⟩, ⟨"done", "Done", []⟩]⟩ "t1" = 1 ∧
    memberCount ⟨[⟨"t1", "Fix auth", 10, 0⟩], [⟨"todo", "Todo", ["t1"]⟩, ⟨"in_progress", "In Progress", []⟩, ⟨"done", "Done", []⟩]⟩ "t1" = 1 :=
  (board_invariant_preserved []).2 emptyBoard
    ⟨[⟨"t1", "Fix auth", 10, 0⟩], [⟨"todo", "Todo", ["t1"]⟩, ⟨"in_progress", "In Progress", []⟩, ⟨"done", "Done", []⟩]⟩
    ⟨"t1", "Fix auth", "desc", "BugFix", .tier "critical"⟩
    (.TaskUpdateCreated "t1") (by decide) rfl

lemma taskExists_tasks_append_self (ts : List Task) (cols : List Column) (t : Task) :
    taskExists ⟨ts ++ [t], cols⟩ t.id = true := by
  unfold taskExists
  simp

/-- C6: two `TaskQueue` requests with the same id, committed in either
serializer order from a state where the id is unused, yield exactly one
success: the first succeeds and the second fails with `Conflict`, leaving
the state exactly as the first left it (never two successes). -/
theorem taskQueue_duplicate_conflict (s : SysState) (tid c₁ c₂ : String) (p₁ p₂ : Int)
    (hp₁ : 0 ≤ p₁) (hp₁' : p₁ ≤ 10) (hp₂ : 0 ≤ p₂) (hp₂' : p₂ ≤ 10)
    (hfresh : taskExists s.board tid = false)
    (hcols : s.board.columns ≠ []) :
    (dispatch s "TaskQueue" (.taskQueue tid p₁ c₁)).1 = .ok (.TaskUpdateCreated tid) ∧
    dispatch (dispatch s "TaskQueue" (.taskQueue tid p₁ c₁)).2 "TaskQueue"
        (.taskQueue tid p₂ c₂) =
      (.error .Conflict, (dispatch s "TaskQueue" (.taskQueue tid p₁ c₁)).2) := by
  have hd : ∀ (st : SysState) (pr : Int) (cmd : String),
      dispatch st "TaskQueue" (.taskQueue tid pr cmd) =
      (if pr < 0 ∨ 10 < pr then ((.error .InvalidArgument : Except CmdError Event), st)
       else if taskExists st.board tid then (.error .Conflict, st)
       else
         match insertTask st.board ⟨tid, cmd, pr, 0⟩ with
         | some b' =>
           (.ok (.TaskUpdateCreated tid),
             { st with board := b', queue := enqueue st.queue ⟨tid, pr⟩ })
         | none => (.error .NotFound, st)) := fun st pr cmd => rfl
  cases hcb : s.board.columns with
  | nil => exact absurd hcb hcols
  | cons c rest =>
    have h1 : ¬(p₁ < 0 ∨ 10 < p₁) := by omega
    have h2 : ¬(p₂ < 0 ∨ 10 < p₂) := by omega
    have hins : insertTask s.board ⟨tid, c₁, p₁, 0⟩ =
        some { s.board with tasks := s.board.tasks ++ [⟨tid, c₁, p₁, 0⟩], columns := { c with tasks := c.tasks ++ [tid] } :: rest } := by
      unfold insertTask
      rw [hcb]
    have hd1 : dispatch s "TaskQueue" (.taskQueue tid p₁ c₁) = (.ok (.TaskUpdateCreated tid), { s with board := { s.board with tasks := s.board.tasks ++ [⟨tid, c₁, p₁, 0⟩], columns := { c with tasks := c.tasks ++ [tid] } :: rest }, queue := enqueue s.queue ⟨tid, p₁⟩ }) := by
      rw [hd s p₁ c₁, if_neg h1, if_neg (by simp [hfresh]), hins]
    have hex1 : taskExists ({ s.board with tasks := s.board.tasks ++ [⟨tid, c₁, p₁, 0⟩], columns := { c with tasks := c.tasks ++ [tid] } :: rest } : TaskBoard) tid = true := by
      have := taskExists_tasks_append_self s.board.tasks
        ({ c with tasks := c.tasks ++ [tid] } :: rest) ⟨tid, c₁, p₁, 0⟩
      exact this
    rw [hd1]
    refine ⟨rfl, ?_⟩
    rw [hd _ p₂ c₂]
    dsimp only
    rw [if_neg h2, if_pos hex1]

/-- Witness for C6 at the concrete `task-001` request of the IPC test. -/
theorem taskQueue_duplicate_conflict_witness :
    (dispatch initState "TaskQueue"
        (.taskQueue "task-001" 8 "Implement authentication system")).1 =
      .ok (.TaskUpdateCreated "task-001") :=
  (taskQueue_duplicate_conflict initState "task-001"
      "Implement authentication system" "Implement authentication system" 8 8
      (by decide) (by decide) (by decide) (by decide) (by decide) (by decide)).1

lemma dropOldestNonCritical_decomp :
    ∀ (q q' : List Event), dropOldestNonCritical q = some q' →
      ∃ h t, q = h ++ Event.Heartbeat :: t ∧ q' = h ++ t ∧
        ∀ x ∈ h, isCritical x = true := by
  intro q
  induction q with
  | nil => intro q' h; simp [dropOldestNonCritical] at h
  | cons e es ih =>
    intro q' hq
    unfold dropOldestNonCritical at hq
    by_cases hc : isCritical e
    · rw [if_pos hc] at hq
      cases hes : dropOldestNonCritical es with
      | none => rw [hes] at hq; simp at hq
      | some es' =>
        rw [hes] at hq
        simp only [Option.map_some', Option.some.injEq] at hq
        obtain ⟨h1, t1, hqe, hq'e, hcrit⟩ := ih es' hes
        refine ⟨e :: h1, t1, by simp [hqe], by simp [← hq, hq'e], ?_⟩
        intro x hx
        rcases List.mem_cons.mp hx with rfl | hx'
        · exact hc
        · exact hcrit x hx'
    · rw [if_neg hc] at hq
      have he : e = Event.Heartbeat := by
        cases e <;> first | rfl | exact absurd rfl hc
      injection hq with hq
      exact ⟨[], es, by simp [he], hq.symm, by simp⟩

lemma hubEnqueue_count_critical (bound : Nat) (q : List Event) (ev e : Event)
    (hcrit : isCritical e = true) :
    (hubEnqueue bound q ev).count e = (q ++ [ev]).count e := by
  unfold hubEnqueue
  split_ifs with hlen
  · rfl
  · cases hdq : dropOldestNonCritical q with
    | none => rfl
    | some q' =>
      dsimp only
      obtain ⟨h1, t1, hq, hq', hcb⟩ := dropOldestNonCritical_decomp q q' hdq
      subst hq
      subst hq'
      have hne : (e == Event.Heartbeat) = false := by
        cases e <;> simp_all [isCritical]
      have hne2 : ¬Event.Heartbeat = e := by
        intro hh
        rw [← hh] at hcrit
        simp [isCritical] at hcrit
      simp [List.count_append, List.count_cons, hne, hne2]

/-- C7: the Broadcast Hub's bounded-queue overflow policy drops only the
oldest pending non-critical event (a `Heartbeat`): every critical event's
multiplicity (in particular every `TaskMoved` and `TaskProgress`) is fully
preserved by `hubEnqueue`, any event whose multiplicity drops is
non-critical, and the event removed on overflow is the oldest pending
non-critical one; `hubEnqueue` is a total function, so the writer path is
never blocked by a full queue. -/
theorem hub_drop_policy (bound : Nat) (q : List Event) (ev : Event) :
    (∀ e : Event, isCritical e = true →
        (hubEnqueue bound q ev).count e = (q ++ [ev]).count e) ∧
    (∀ e : Event, (hubEnqueue bound q ev).count e < (q ++ [ev]).count e →
        isCritical e = false) ∧
    (∀ tid c, (hubEnqueue bound q ev).count (Event.TaskMoved tid c) =
        (q ++ [ev]).count (Event.TaskMoved tid c)) ∧
    (∀ tid p, (hubEnqueue bound q ev).count (Event.TaskProgress tid p) =
        (q ++ [ev]).count (Event.TaskProgress tid p)) ∧
    (∀ q', dropOldestNonCritical q = some q' →
        ∃ h t, q = h ++ Event.Heartbeat :: t ∧ q' = h ++ t ∧
          ∀ x ∈ h, isCritical x = true) := by
  refine ⟨fun e he => hubEnqueue_count_critical bound q ev e he, ?_, ?_, ?_,
    fun q' hq' => dropOldestNonCritical_decomp q q' hq'⟩
  · intro e hlt
    by_cases hc : isCritical e
    · rw [hubEnqueue_count_critical bound q ev e hc] at hlt
      exact absurd hlt (lt_irrefl _)
    · simpa using hc
  · intro tid c
    exact hubEnqueue_count_critical bound q ev (Event.TaskMoved tid c) rfl
  · intro tid p
    exact hubEnqueue_count_critical bound q ev (Event.TaskProgress tid p) rfl

/-- Witness for C7: a full queue holding a `Heartbeat` keeps an incoming
`TaskMoved` intact. -/
theorem hub_drop_policy_witness :
    (hubEnqueue 1 [Event.Heartbeat] (Event.TaskMoved "t1" "done")).count
        (Event.TaskMoved "t1" "done") =
      ([Event.Heartbeat] ++ [Event.TaskMoved "t1" "done"]).count
        (Event.TaskMoved "t1" "done") :=
  (hub_drop_policy 1 [Event.Heartbeat] (Event.TaskMoved "t1" "done")).1
    (Event.TaskMoved "t1" "done") (by decide)

end WeztermParallel
